import Mathlib

/-!
Verification of the tiny-keccak `Keccak` hasher (src/keccak.rs) and the
sponge/permutation core it delegates to, shallowly embedded in Lean.

Bytes and 64-bit lanes are modelled as `Nat` with explicit reduction
modulo 2^64 (for lanes) and 256 (for bytes) wherever overflow matters.
The 200-byte sponge buffer is a `List Nat`; the permutation state is a
`List Nat` of 25 lanes (flat index `x + 5*y`).
-/

namespace TinyKeccak

set_option maxRecDepth 10000

/-- All-ones 64-bit mask, used for bitwise complement within a lane. -/
def mask64 : Nat := 2 ^ 64 - 1

/-- Left-rotate a 64-bit word by `n` bits (rotation amount taken mod 64,
operand reduced mod 2^64). -/
def rotl64 (w n : Nat) : Nat :=
  let w := w % 2 ^ 64
  let n := n % 64
  ((w <<< n) % 2 ^ 64) ||| (w >>> (64 - n))

/-- Modelled from the spec: the 24 round constants of Keccak-f[1600]
("24 fixed constants, one per round" of the reference standard);
`keccakf.rs` is not under src/. -/
def RC : List Nat :=
  [0x0000000000000001, 0x0000000000008082, 0x800000000000808a,
   0x8000000080008000, 0x000000000000808b, 0x0000000080000001,
   0x8000000080008081, 0x8000000000008009, 0x000000000000008a,
   0x0000000000000088, 0x0000000080008009, 0x000000008000000a,
   0x000000008000808b, 0x800000000000008b, 0x8000000000008089,
   0x8000000000008003, 0x8000000000008002, 0x8000000000000080,
   0x000000000000800a, 0x800000008000000a, 0x8000000080008081,
   0x8000000000008080, 0x0000000080000001, 0x8000000080008008]

/-- Modelled from the spec: the 25 lane-specific rotation offsets of the
rho step ("25 constants, 0-63, defined by the standard"), at flat index
`x + 5*y`; `keccakf.rs` is not under src/. -/
def RHO : List Nat :=
  [0, 1, 62, 28, 27] ++ [36, 44, 6, 55, 20] ++ [3, 10, 43, 25, 39] ++
    [41, 45, 15, 21, 8] ++ [18, 2, 61, 56, 14]

/-- Lane at flat index `i` (0 when out of range). -/
def lane (a : List Nat) (i : Nat) : Nat := a.getD i 0

/-- Parity of column `x`: XOR of the five lanes in that column. -/
def thetaC (a : List Nat) (x : Nat) : Nat :=
  lane a x ^^^ lane a (x + 5) ^^^ lane a (x + 10) ^^^
    lane a (x + 15) ^^^ lane a (x + 20)

/-- Theta adjustment for column `x`: parity of the left-neighbour column
XORed with the right-neighbour parity rotated left by one bit. -/
def thetaD (a : List Nat) (x : Nat) : Nat :=
  thetaC a ((x + 4) % 5) ^^^ rotl64 (thetaC a ((x + 1) % 5)) 1

/-- Modelled from the spec: theta step — per-column parity XORed into each
lane with the neighbouring column parities, one rotated left by one bit. -/
def theta (a : List Nat) : List Nat :=
  (List.range 25).map fun i => lane a i ^^^ thetaD a (i % 5)

/-- Modelled from the spec: rho step — rotate each lane left by its fixed
lane-specific offset. -/
def rho (a : List Nat) : List Nat :=
  (List.range 25).map fun i => rotl64 (lane a i) (RHO.getD i 0)

/-- Modelled from the spec: pi step — the fixed transposition
`A'[y][(2x+3y) mod 5] = A[x][y]` of the 5x5 grid, written here by its
inverse index map on the flat representation. -/
def piStep (a : List Nat) : List Nat :=
  (List.range 25).map fun j =>
    lane a ((j % 5 + 3 * (j / 5)) % 5 + 5 * (j % 5))

/-- Modelled from the spec: chi step — each lane XORed with
`(~neighbour1) & neighbour2` across its row. -/
def chi (a : List Nat) : List Nat :=
  (List.range 25).map fun j =>
    lane a j ^^^
      ((lane a ((j % 5 + 1) % 5 + 5 * (j / 5)) ^^^ mask64) &&&
        lane a ((j % 5 + 2) % 5 + 5 * (j / 5)))

/-- Modelled from the spec: iota step — XOR the first lane (position
[0][0]) with the round-specific constant. -/
def iotaStep (i : Nat) (a : List Nat) : List Nat :=
  a.set 0 (lane a 0 ^^^ RC.getD i 0)

/-- Modelled from the spec: one Keccak-f round — theta, rho, pi, chi,
iota in order. -/
def keccakRound (a : List Nat) (i : Nat) : List Nat :=
  iotaStep i (chi (piStep (rho (theta a))))

/-- Modelled from the spec: the full 24-round Keccak-f[1600] permutation
(`KeccakF`); `keccakf.rs` is not under src/. -/
def keccakf (a : List Nat) : List Nat :=
  (List.range 24).foldl keccakRound a

/-- Pack 200 buffer bytes into 25 little-endian 64-bit lanes. -/
def bytesToLanes (buf : List Nat) : List Nat :=
  (List.range 25).map fun j =>
    (List.range 8).foldl (fun acc k => acc ||| ((buf.getD (8 * j + k) 0) <<< (8 * k))) 0

/-- Unpack 25 little-endian 64-bit lanes into 200 buffer bytes. -/
def lanesToBytes (a : List Nat) : List Nat :=
  (List.range 200).map fun i => (lane a (i / 8) >>> (8 * (i % 8))) % 256

/-- Apply Keccak-f to the byte buffer through the little-endian lane view. -/
def permuteBuffer (buf : List Nat) : List Nat :=
  lanesToBytes (keccakf (bytesToLanes buf))

/-- Modelled from the spec: the sponge mode — a fixed enumeration
{Absorbing, Squeezing}; `lib.rs` is not under src/. -/
inductive Mode where
  | Absorbing : Mode
  | Squeezing : Mode
deriving DecidableEq

/-- Modelled from the spec: the sponge state (`KeccakState<KeccakF>`):
200-byte buffer, write offset, rate, delimiter byte and mode;
`lib.rs` is not under src/. -/
structure KeccakState where
  buffer : List Nat
  offset : Nat
  rate : Nat
  delim : Nat
  mode : Mode
deriving DecidableEq

/-- Modelled from the spec: `KeccakState::new(rate, delim)` — zeroed
200-byte buffer, offset 0, absorbing. -/
def KeccakState.new (rate delim : Nat) : KeccakState :=
  { buffer := List.replicate 200 0
    offset := 0
    rate := rate
    delim := delim
    mode := Mode.Absorbing }

/-- The direct (non-permutation) buffer write of one absorbed byte:
XOR the byte into the buffer at the current offset. -/
def absorbDirect (s : KeccakState) (b : Nat) : List Nat :=
  s.buffer.set s.offset ((s.buffer.getD s.offset 0) ^^^ (b % 256))

/-- Modelled from the spec: absorb one input byte — XOR it at the current
offset, increment the offset, and when the offset reaches the rate
permute the buffer and reset the offset to 0. -/
def absorbByte (s : KeccakState) (b : Nat) : KeccakState :=
  if s.offset + 1 = s.rate then
    { s with buffer := permuteBuffer (absorbDirect s b), offset := 0 }
  else
    { s with buffer := absorbDirect s b, offset := s.offset + 1 }

/-- Modelled from the spec: `KeccakState::update` — absorb each input
byte in order; `lib.rs` is not under src/. -/
def update (s : KeccakState) (input : List Nat) : KeccakState :=
  input.foldl absorbByte s

/-- The direct (non-permutation) buffer write of the pad step: XOR the
delimiter at the current offset, then OR 0x80 into the byte at
`rate - 1`. -/
def padBuffer (s : KeccakState) : List Nat :=
  (s.buffer.set s.offset ((s.buffer.getD s.offset 0) ^^^ s.delim)).set (s.rate - 1)
    (((s.buffer.set s.offset ((s.buffer.getD s.offset 0) ^^^ s.delim)).getD
        (s.rate - 1) 0) ||| 0x80)

/-- Modelled from the spec: the pad-and-transition step invoked once at
the start of finalize — pad the buffer, permute once, transition to
`Squeezing`, reset the offset to 0; `lib.rs` is not under src/. -/
def padTransition (s : KeccakState) : KeccakState :=
  { buffer := permuteBuffer (padBuffer s)
    offset := 0
    rate := s.rate
    delim := s.delim
    mode := Mode.Squeezing }

/-- Modelled from the spec: squeeze one output byte — read the buffer at
the current offset, advance it, and when the offset reaches the rate
permute again and reset it to 0. -/
def squeezeByte (s : KeccakState) : Nat × KeccakState :=
  if s.offset + 1 = s.rate then
    (s.buffer.getD s.offset 0,
      { s with buffer := permuteBuffer s.buffer, offset := 0 })
  else
    (s.buffer.getD s.offset 0, { s with offset := s.offset + 1 })

/-- Modelled from the spec: squeeze `n` output bytes. -/
def squeezeBytes (s : KeccakState) : Nat → List Nat
  | 0 => []
  | n + 1 => (squeezeByte s).1 :: squeezeBytes (squeezeByte s).2 n

/-- Modelled from the spec: `KeccakState::finalize(output)` —
pad-and-transition, then squeeze the requested number of bytes;
`lib.rs` is not under src/. -/
def finalizeBytes (s : KeccakState) (L : Nat) : List Nat :=
  squeezeBytes (padTransition s) L

/-- Modelled from the spec: `bits_to_rate` — the rate in bytes for a
security level, `rate = (1600 - 2*securityBits) / 8`; `lib.rs` is not
under src/. -/
def bits_to_rate (bits : Nat) : Nat := (1600 - 2 * bits) / 8

/-- The `Keccak` hasher of src/keccak.rs: a wrapper around the sponge
state. -/
structure Keccak where
  state : KeccakState
deriving DecidableEq

/-- The constant Keccak::DELIM of src/keccak.rs (line 23). -/
def Keccak.DELIM : Nat := 0x01

/-- The constructor Keccak::new(bits) of src/keccak.rs (lines 61-65). -/
def Keccak.new (bits : Nat) : Keccak :=
  { state := KeccakState.new (bits_to_rate bits) Keccak.DELIM }

/-- The constructor Keccak::v224(). -/
def Keccak.v224 : Keccak := Keccak.new 224

/-- The constructor Keccak::v256(). -/
def Keccak.v256 : Keccak := Keccak.new 256

/-- The constructor Keccak::v384(). -/
def Keccak.v384 : Keccak := Keccak.new 384

/-- The constructor Keccak::v512(). -/
def Keccak.v512 : Keccak := Keccak.new 512

/-- The method Hasher::update for Keccak (src/keccak.rs lines 82-84):
delegates to the sponge state. -/
def Keccak.update (k : Keccak) (input : List Nat) : Keccak :=
  { state := TinyKeccak.update k.state input }

/-- The method Hasher::finalize for Keccak (src/keccak.rs lines 100-102):
delegates to the sponge state, returning the output bytes. -/
def Keccak.finalize (k : Keccak) (L : Nat) : List Nat :=
  finalizeBytes k.state L

/-- States reachable by a sequence of constructor, update, and finalize
steps (the pad transition and each squeeze step of a finalize call are
included as individual steps). -/
inductive Reachable : KeccakState → Prop where
  | ctor (bits : Nat)
      (h : bits = 224 ∨ bits = 256 ∨ bits = 384 ∨ bits = 512) :
      Reachable (Keccak.new bits).state
  | upd (s : KeccakState) (input : List Nat) :
      Reachable s → Reachable (update s input)
  | pad (s : KeccakState) : Reachable s → Reachable (padTransition s)
  | sqz (s : KeccakState) : Reachable s → Reachable (squeezeByte s).2

section Lemmas

/-- A default-0 lookup in a list of naturals bounded by a positive bound
is itself bounded. -/
theorem getD_lt_of_forall_lt (l : List Nat) (i B : Nat) (hB : 0 < B)
    (h : ∀ w ∈ l, w < B) : l.getD i 0 < B := by
  induction l generalizing i with
  | nil => simpa [List.getD] using hB
  | cons x xs ih =>
    cases i with
    | zero => exact h x (List.mem_cons_self x xs)
    | succ n => exact ih n (fun w hw => h w (List.mem_cons_of_mem x hw))

/-- Setting one position leaves default-0 lookups at other positions
unchanged. -/
theorem getD_set_ne (l : List Nat) (i j v : Nat) (h : i ≠ j) :
    (l.set i v).getD j 0 = l.getD j 0 := by
  simp [List.getD_eq_getElem?_getD, List.getElem?_set_ne h]

/-- Default-0 lookup at a position just set, when in range, gives the new
value. -/
theorem getD_set_self (l : List Nat) (i v : Nat) (h : i < l.length) :
    (l.set i v).getD i 0 = v := by
  simp [List.getD_eq_getElem?_getD, List.getElem?_set_self h]

/-- Left rotation always yields a 64-bit word. -/
theorem rotl64_lt (w n : Nat) : rotl64 w n < 2 ^ 64 := by
  unfold rotl64
  exact Nat.or_lt_two_pow (Nat.mod_lt _ (by norm_num))
    (lt_of_le_of_lt
      (by simpa [Nat.shiftRight_eq_div_pow] using
        Nat.div_le_self (w % 2 ^ 64) (2 ^ (64 - n % 64)))
      (Nat.mod_lt _ (by norm_num)))

/-- Lanes of a bounded lane list are bounded (out-of-range reads give 0). -/
theorem lane_lt (a : List Nat) (i : Nat) (h : ∀ w ∈ a, w < 2 ^ 64) :
    lane a i < 2 ^ 64 :=
  getD_lt_of_forall_lt a i _ (by norm_num) h

theorem thetaC_lt (a : List Nat) (x : Nat) (h : ∀ w ∈ a, w < 2 ^ 64) :
    thetaC a x < 2 ^ 64 :=
  Nat.xor_lt_two_pow (Nat.xor_lt_two_pow (Nat.xor_lt_two_pow
    (Nat.xor_lt_two_pow (lane_lt a _ h) (lane_lt a _ h)) (lane_lt a _ h))
    (lane_lt a _ h)) (lane_lt a _ h)

theorem thetaD_lt (a : List Nat) (x : Nat) (h : ∀ w ∈ a, w < 2 ^ 64) :
    thetaD a x < 2 ^ 64 :=
  Nat.xor_lt_two_pow (thetaC_lt a _ h) (rotl64_lt _ _)

/-- Bound transport along a 25-entry map. -/
theorem forall_mem_map_range_lt (f : Nat → Nat) (B : Nat)
    (h : ∀ i, f i < B) : ∀ w ∈ (List.range 25).map f, w < B := by
  intro w hw
  rcases List.mem_map.1 hw with ⟨i, -, rfl⟩
  exact h i

theorem theta_bound (a : List Nat) (h : ∀ w ∈ a, w < 2 ^ 64) :
    (theta a).length = 25 ∧ ∀ w ∈ theta a, w < 2 ^ 64 :=
  ⟨by simp [theta],
   forall_mem_map_range_lt _ _ fun i =>
     Nat.xor_lt_two_pow (lane_lt a i h) (thetaD_lt a _ h)⟩

theorem rho_bound (a : List Nat) :
    (rho a).length = 25 ∧ ∀ w ∈ rho a, w < 2 ^ 64 :=
  ⟨by simp [rho], forall_mem_map_range_lt _ _ fun i => rotl64_lt _ _⟩

theorem piStep_bound (a : List Nat) (h : ∀ w ∈ a, w < 2 ^ 64) :
    (piStep a).length = 25 ∧ ∀ w ∈ piStep a, w < 2 ^ 64 :=
  ⟨by simp [piStep], forall_mem_map_range_lt _ _ fun j => lane_lt a _ h⟩

theorem chi_bound (a : List Nat) (h : ∀ w ∈ a, w < 2 ^ 64) :
    (chi a).length = 25 ∧ ∀ w ∈ chi a, w < 2 ^ 64 :=
  ⟨by simp [chi],
   forall_mem_map_range_lt _ _ fun j =>
     Nat.xor_lt_two_pow (lane_lt a j h) (Nat.and_lt_two_pow _ (lane_lt a _ h))⟩

theorem RC_getD_lt (i : Nat) : RC.getD i 0 < 2 ^ 64 :=
  getD_lt_of_forall_lt RC i _ (by norm_num) (by decide)

theorem iotaStep_bound (i : Nat) (a : List Nat)
    (h : a.length = 25 ∧ ∀ w ∈ a, w < 2 ^ 64) :
    (iotaStep i a).length = 25 ∧ ∀ w ∈ iotaStep i a, w < 2 ^ 64 := by
  refine ⟨by simp [iotaStep, h.1], fun w hw => ?_⟩
  rcases List.mem_or_eq_of_mem_set hw with hw | rfl
  · exact h.2 w hw
  · exact Nat.xor_lt_two_pow (lane_lt a 0 h.2) (RC_getD_lt i)

theorem keccakRound_bound (a : List Nat) (i : Nat)
    (_h : a.length = 25 ∧ ∀ w ∈ a, w < 2 ^ 64) :
    (keccakRound a i).length = 25 ∧ ∀ w ∈ keccakRound a i, w < 2 ^ 64 :=
  iotaStep_bound i _
    ⟨(chi_bound _ (piStep_bound _ (rho_bound (theta a)).2).2).1,
     (chi_bound _ (piStep_bound _ (rho_bound (theta a)).2).2).2⟩

theorem foldl_keccakRound_bound (l : List Nat) (a : List Nat)
    (h : a.length = 25 ∧ ∀ w ∈ a, w < 2 ^ 64) :
    (l.foldl keccakRound a).length = 25 ∧
      ∀ w ∈ l.foldl keccakRound a, w < 2 ^ 64 := by
  induction l generalizing a with
  | nil => exact h
  | cons x xs ih => exact ih _ (keccakRound_bound a x h)

/-- Squeezing a longer output extends the shorter one byte for byte. -/
theorem squeezeBytes_take (s : KeccakState) (L k : Nat) :
    (squeezeBytes s (L + k)).take L = squeezeBytes s L := by
  induction L generalizing s with
  | zero => simp [squeezeBytes]
  | succ n ih =>
    have hnk : n + 1 + k = (n + k) + 1 := by omega
    rw [hnk]
    simp only [squeezeBytes, List.take_succ_cons]
    rw [ih]

end Lemmas

/-- C1: for every hasher (hence every security level) and all byte lists
a and b, absorbing a then b and finalizing gives the same output bytes,
for every output length, as absorbing the concatenation a ++ b in one
call and finalizing. -/
theorem split_update_eq_concat_update (k : Keccak) (a b : List Nat)
    (L : Nat) :
    (Keccak.update (Keccak.update k a) b).finalize L =
      (Keccak.update k (a ++ b)).finalize L := by
  simp [Keccak.update, Keccak.finalize, update, List.foldl_append]

/-- C5: the rates created by the four constructors are 144, 136, 104, and
72 bytes, matching rate = (1600 - 2*securityBits) / 8. -/
theorem constructor_rates :
    Keccak.v224.state.rate = 144 ∧ Keccak.v256.state.rate = 136 ∧
      Keccak.v384.state.rate = 104 ∧ Keccak.v512.state.rate = 72 ∧
      Keccak.v224.state.rate = (1600 - 2 * 224) / 8 ∧
      Keccak.v256.state.rate = (1600 - 2 * 256) / 8 ∧
      Keccak.v384.state.rate = (1600 - 2 * 384) / 8 ∧
      Keccak.v512.state.rate = (1600 - 2 * 512) / 8 := by
  decide

/-- C6 counterexample: the rate of a Keccak::v256 hasher is not 144
bytes. -/
theorem v256_rate_ne_144 : ¬ Keccak.v256.state.rate = 144 := by
  decide

/-- C6 (amended): a hasher created for 256-bit security (Keccak::v256)
has a rate of 136 bytes. -/
theorem v256_rate_eq_136 : Keccak.v256.state.rate = 136 := by
  decide

/-- C7: every Keccak constructor creates a state whose delimiter byte is
0x01, independent of the security level. -/
theorem all_constructors_delim :
    Keccak.v224.state.delim = 0x01 ∧ Keccak.v256.state.delim = 0x01 ∧
      Keccak.v384.state.delim = 0x01 ∧ Keccak.v512.state.delim = 0x01 ∧
      ∀ bits : Nat, (Keccak.new bits).state.delim = 0x01 :=
  ⟨rfl, rfl, rfl, rfl, fun _ => rfl⟩

/-- C8: finalizing into a longer output agrees with finalizing into a
shorter one on the common prefix, for every hasher, and a zero-length
output yields no bytes. -/
theorem finalize_prefix_consistency (k : Keccak) (L kk : Nat) :
    (k.finalize (L + kk)).take L = k.finalize L ∧ k.finalize 0 = [] :=
  ⟨squeezeBytes_take _ L kk, rfl⟩

/-- C3: the pad step XORs the delimiter into the buffer at the current
offset and ORs 0x80 into the byte at rate - 1 (combining delimiter and
final bit by OR into that single byte when offset = rate - 1), leaves
every other byte unchanged, after which finalize applies exactly one
permutation, moves the state to Squeezing, and resets the offset to 0. -/
theorem pad_step_spec (s : KeccakState) (h1 : s.offset < s.rate)
    (h2 : s.rate ≤ s.buffer.length) :
    (padTransition s).buffer = permuteBuffer (padBuffer s) ∧
      (padTransition s).mode = Mode.Squeezing ∧
      (padTransition s).offset = 0 ∧
      (s.offset ≠ s.rate - 1 →
        (padBuffer s).getD s.offset 0 =
            (s.buffer.getD s.offset 0) ^^^ s.delim ∧
          (padBuffer s).getD (s.rate - 1) 0 =
            (s.buffer.getD (s.rate - 1) 0) ||| 0x80) ∧
      (s.offset = s.rate - 1 →
        (padBuffer s).getD s.offset 0 =
          ((s.buffer.getD s.offset 0) ^^^ s.delim) ||| 0x80) ∧
      (∀ i, i ≠ s.offset → i ≠ s.rate - 1 →
        (padBuffer s).getD i 0 = s.buffer.getD i 0) := by
  have hr : 0 < s.rate := Nat.lt_of_le_of_lt (Nat.zero_le _) h1
  have hoff : s.offset < s.buffer.length := lt_of_lt_of_le h1 h2
  have hr1 : s.rate - 1 < s.buffer.length :=
    lt_of_lt_of_le (Nat.sub_lt hr Nat.one_pos) h2
  refine ⟨rfl, rfl, rfl, ?_, ?_, ?_⟩
  · intro hne
    constructor
    · unfold padBuffer
      rw [getD_set_ne _ _ _ _ (fun hh => hne hh.symm)]
      exact getD_set_self _ _ _ hoff
    · unfold padBuffer
      rw [getD_set_self _ _ _ (by simpa using hr1),
        getD_set_ne _ _ _ _ hne]
  · intro heq
    unfold padBuffer
    rw [heq, getD_set_self _ _ _ (by simpa using hr1),
      getD_set_self _ _ _ hr1]
  · intro i hio hir
    unfold padBuffer
    rw [getD_set_ne _ _ _ _ (fun hh => hir hh.symm),
      getD_set_ne _ _ _ _ (fun hh => hio hh.symm)]

/-- A concrete absorbing state whose offset sits at rate - 1, exercising
the pad edge case. -/
def padEdgeState : KeccakState :=
  { buffer := List.replicate 200 0
    offset := 135
    rate := 136
    delim := 0x01
    mode := Mode.Absorbing }

/-- Witness for C3 at a state with offset = rate - 1: both hypotheses
hold there, and the delimiter and final bit land in the same byte,
combined by OR. -/
theorem pad_step_spec_witness :
    padEdgeState.offset < padEdgeState.rate ∧
      padEdgeState.rate ≤ padEdgeState.buffer.length ∧
      (padBuffer padEdgeState).getD padEdgeState.offset 0 =
        ((padEdgeState.buffer.getD padEdgeState.offset 0) ^^^
            padEdgeState.delim) ||| 0x80 :=
  ⟨by decide, by decide,
   (pad_step_spec padEdgeState (by decide) (by decide)).2.2.2.2.1 rfl⟩

/-- C4: the permutation is the full Keccak-f[1600] transformation: it
folds the 24 round indices in order over the round function; each round
is theta, rho, pi, chi, iota in that order; iota XORs lane [0][0] with
the round-specific constant of the standard (RC lists the 24 constants);
and on every 25-lane state of 64-bit words the (deterministic, total)
result is again a 25-lane state of 64-bit words. -/
theorem keccakf_full_permutation :
    (∀ a : List Nat, keccakf a = (List.range 24).foldl keccakRound a) ∧
      RC.length = 24 ∧
      (∀ (a : List Nat) (i : Nat),
        keccakRound a i = iotaStep i (chi (piStep (rho (theta a))))) ∧
      (∀ (a : List Nat) (i : Nat), a.length = 25 →
        lane (iotaStep i a) 0 = (lane a 0) ^^^ RC.getD i 0) ∧
      (∀ a : List Nat, a.length = 25 → (∀ w ∈ a, w < 2 ^ 64) →
        (keccakf a).length = 25 ∧ ∀ w ∈ keccakf a, w < 2 ^ 64) := by
  refine ⟨fun a => rfl, rfl, fun a i => rfl, ?_, ?_⟩
  · intro a i h
    unfold iotaStep lane
    exact getD_set_self _ _ _ (by omega)
  · intro a h hb
    exact foldl_keccakRound_bound _ a ⟨h, hb⟩

/-- Witness for C4 at the all-zero 25-lane state: the hypotheses hold and
the permuted state is again 25 bounded lanes. -/
theorem keccakf_full_permutation_witness :
    (List.replicate 25 0).length = 25 ∧
      (∀ w ∈ List.replicate 25 0, w < 2 ^ 64) ∧
      ((keccakf (List.replicate 25 0)).length = 25 ∧
        ∀ w ∈ keccakf (List.replicate 25 0), w < 2 ^ 64) :=
  ⟨by decide, by decide,
   keccakf_full_permutation.2.2.2.2 _ (by decide) (by decide)⟩

theorem absorbByte_offset_lt (s : KeccakState) (b : Nat)
    (h : s.offset < s.rate) :
    (absorbByte s b).offset < (absorbByte s b).rate := by
  unfold absorbByte
  split
  · exact Nat.lt_of_le_of_lt (Nat.zero_le _) h
  · rename_i hne
    exact Nat.lt_of_le_of_ne (Nat.succ_le_of_lt h) hne

theorem update_offset_lt (s : KeccakState) (input : List Nat)
    (h : s.offset < s.rate) :
    (update s input).offset < (update s input).rate := by
  induction input generalizing s with
  | nil => exact h
  | cons x xs ih => exact ih _ (absorbByte_offset_lt s x h)

theorem squeezeByte_offset_lt (s : KeccakState) (h : s.offset < s.rate) :
    (squeezeByte s).2.offset < (squeezeByte s).2.rate := by
  unfold squeezeByte
  split
  · exact Nat.lt_of_le_of_lt (Nat.zero_le _) h
  · rename_i hne
    exact Nat.lt_of_le_of_ne (Nat.succ_le_of_lt h) hne

theorem padTransition_offset_lt (s : KeccakState) (h : s.offset < s.rate) :
    (padTransition s).offset < (padTransition s).rate :=
  Nat.lt_of_le_of_lt (Nat.zero_le _) h

theorem reachable_offset_lt (s : KeccakState) (h : Reachable s) :
    s.offset < s.rate := by
  induction h with
  | ctor bits hb => rcases hb with rfl | rfl | rfl | rfl <;> decide
  | upd s input _ ih => exact update_offset_lt s input ih
  | pad s _ ih => exact padTransition_offset_lt s ih
  | sqz s _ ih => exact squeezeByte_offset_lt s ih

/-- C9: in every reachable state the offset stays strictly below the
rate; the direct (non-permutation) writes of absorb and pad leave every
capacity byte (position at or past the rate) unchanged; and after an
absorb or squeeze step the buffer is exactly the direct-write result or
its image under the permutation, so capacity bytes change only through
the permutation. -/
theorem offset_and_capacity_invariant :
    (∀ s : KeccakState, Reachable s → s.offset < s.rate) ∧
      (∀ (s : KeccakState) (b i : Nat), s.offset < s.rate → s.rate ≤ i →
        (absorbDirect s b).getD i 0 = s.buffer.getD i 0) ∧
      (∀ (s : KeccakState) (i : Nat), s.offset < s.rate → s.rate ≤ i →
        (padBuffer s).getD i 0 = s.buffer.getD i 0) ∧
      (∀ (s : KeccakState) (b : Nat),
        (absorbByte s b).buffer = absorbDirect s b ∨
          (absorbByte s b).buffer = permuteBuffer (absorbDirect s b)) ∧
      (∀ s : KeccakState,
        (squeezeByte s).2.buffer = s.buffer ∨
          (squeezeByte s).2.buffer = permuteBuffer s.buffer) := by
  refine ⟨fun s h => reachable_offset_lt s h, ?_, ?_, ?_, ?_⟩
  · intro s b i h1 h2
    exact getD_set_ne _ _ _ _ (by omega)
  · intro s i h1 h2
    unfold padBuffer
    rw [getD_set_ne _ _ _ _ (by omega), getD_set_ne _ _ _ _ (by omega)]
  · intro s b
    unfold absorbByte
    split
    · exact Or.inr rfl
    · exact Or.inl rfl
  · intro s
    unfold squeezeByte
    split
    · exact Or.inr rfl
    · exact Or.inl rfl

/-- Witness for C9: a freshly constructed 256-bit state is reachable with
offset below rate, and a direct absorb write at offset 0 leaves the
capacity byte at position 150 unchanged. -/
theorem offset_and_capacity_invariant_witness :
    (Keccak.new 256).state.offset < (Keccak.new 256).state.rate ∧
      (absorbDirect (Keccak.new 256).state 0xab).getD 150 0 =
        (Keccak.new 256).state.buffer.getD 150 0 :=
  ⟨offset_and_capacity_invariant.1 _
      (Reachable.ctor 256 (Or.inr (Or.inl rfl))),
   offset_and_capacity_invariant.2.1 _ 0xab 150 (by decide) (by decide)⟩

set_option maxRecDepth 10000 in
/-- C2: finalizing a freshly created Keccak::v256 hasher with no update
calls into a 32-byte output yields the published Keccak-256 empty-input
digest c5d2460186f7233c927e7db2dcc703c0e500b653ca82273b7bfad8045d85a470. -/
theorem v256_empty_input_digest :
    Keccak.v256.finalize 32 =
      [0xc5, 0xd2, 0x46, 0x01, 0x86, 0xf7, 0x23, 0x3c,
       0x92, 0x7e, 0x7d, 0xb2, 0xdc, 0xc7, 0x03, 0xc0,
       0xe5, 0x00, 0xb6, 0x53, 0xca, 0x82, 0x27, 0x3b,
       0x7b, 0xfa, 0xd8, 0x04, 0x5d, 0x85, 0xa4, 0x70] := by
  decide

end TinyKeccak
